import Mathlib

/-!
Verification of the promiditheus core (src/src/promiditheus/__init__.py) against
its natural-language specification.  The Python code is shallowly embedded:
floats become rationals, MIDI pitches become integers (their midi numbers),
fallible operations return Option/Except, and the Python runtime primitives the
code relies on (round, int(), negative list indexing, time.sleep) are embedded
with their documented CPython semantics.
-/

namespace Promiditheus

/-! ## Python runtime primitives -/

/-- CPython builtin round() on a rational: nearest integer, ties to even
(banker's rounding). -/
def pyRound (q : ℚ) : ℤ :=
  if q - ⌊q⌋ < 1/2 then ⌊q⌋
  else if 1/2 < q - ⌊q⌋ then ⌊q⌋ + 1
  else if ⌊q⌋ % 2 = 0 then ⌊q⌋ else ⌊q⌋ + 1

/-- CPython builtin int() on a rational: truncation toward zero. -/
def pyTrunc (q : ℚ) : ℤ :=
  if 0 ≤ q then ⌊q⌋ else ⌈q⌉

/-- CPython list subscript `xs[i]` with an integer index: negative indices wrap
around from the end (`xs[-1]` is the last element); an index outside
`[-len, len)` raises IndexError, modelled as `none`. -/
def pyGetElem {α : Type} (xs : List α) (i : ℤ) : Option α :=
  if 0 ≤ i then xs.get? i.toNat
  else if 0 ≤ i + xs.length then xs.get? (i + xs.length).toNat
  else none

/-- CPython time.sleep: raises ValueError on a negative duration. -/
def pySleep (d : ℚ) : Except String Unit :=
  if d < 0 then Except.error "ValueError: sleep length must be non-negative"
  else Except.ok ()

/-! ## Data model (from `Instrument` and `QueryPlayer`) -/

/-- `Instrument`: name, program number and the ordered pitch list produced by
`scale.getPitches(*pitch_range)` (pitches as midi numbers). -/
structure Instrument where
  name : String
  programNumber : ℤ
  availablePitches : List ℤ
deriving Repr, DecidableEq

/-- `Instrument.__init__`: stores its arguments with no validation whatsoever
(in particular an empty pitch list is accepted).  The Option result models a
Python constructor's ability to raise; this one never does. -/
def instrumentInit (name : String) (programNumber : ℤ) (availablePitches : List ℤ) :
    Option Instrument :=
  some { name := name, programNumber := programNumber, availablePitches := availablePitches }

/-- `Instrument.clamp`: `idx = round((len(self.available_pitches) - 1) * value)`
followed by the Python list subscript `self.available_pitches[idx]`. -/
def Instrument.clamp (inst : Instrument) (value : ℚ) : Option ℤ :=
  let idx := pyRound ((((inst.availablePitches.length : ℤ) - 1 : ℤ) : ℚ) * value)
  pyGetElem inst.availablePitches idx

/-- mido messages as produced by the core (`time` is the delta-time field;
mido's default for an omitted time argument is 0). -/
inductive Msg where
  | setTempo (tempo : ℤ) (time : ℤ)
  | programChange (channel : ℤ) (program : ℤ) (time : ℤ)
  | noteOn (channel : ℤ) (note : ℤ) (velocity : ℤ) (time : ℤ)
  | noteOff (channel : ℤ) (note : ℤ) (time : ℤ)
deriving Repr, DecidableEq

/-- The delta-time field of a message. -/
def Msg.time : Msg → ℤ
  | .setTempo _ t => t
  | .programChange _ _ t => t
  | .noteOn _ _ _ t => t
  | .noteOff _ _ t => t

/-- The mutable per-voice state of a `QueryPlayer`: its channel, its
instrument, and `_last_note` (None before any note was emitted). -/
structure Player where
  channel : ℤ
  instrument : Instrument
  lastNote : Option ℤ
deriving Repr, DecidableEq

/-- `QueryPlayer._off_message`: a note-off for `_last_note` carrying
`msg_time`, or nothing when `_last_note is None`. -/
def offMessage (p : Player) (msgTime : ℤ) : List Msg :=
  match p.lastNote with
  | some n => [Msg.noteOff p.channel n msgTime]
  | none => []

/-- `QueryPlayer._get_messages`: note-change detection.  If `note !=
self._last_note`, emit the off-message for the previous note (if any) followed
by a velocity-127 note-on; the on-message's time is 0 exactly when an off was
emitted, else `msg_time`.  `_last_note` is assigned unconditionally. -/
def getMessages (p : Player) (note : ℤ) (msgTime : ℤ) : List Msg × Player :=
  let msgs : List Msg :=
    if some note ≠ p.lastNote then
      let offMsg := offMessage p msgTime
      let onMsgTime : ℤ := if offMsg.isEmpty then msgTime else 0
      offMsg ++ [Msg.noteOn p.channel note 127 onMsgTime]
    else []
  (msgs, { p with lastNote := some note })

/-- `QueryPlayer._program_change_message` (mido default time 0). -/
def programChangeMessage (p : Player) : Msg :=
  Msg.programChange p.channel p.instrument.programNumber 0

/-- `_get_note_for_value` followed by `_get_messages`: one voice update for a
raw metric value.  `none` models the IndexError `clamp` raises on an index that
is out of range. -/
def updateVoice (p : Player) (value : ℚ) (msgTime : ℤ) : Option (List Msg × Player) :=
  match p.instrument.clamp value with
  | none => none
  | some note => some (getMessages p note msgTime)

/-! ## Range track builder (`GenerateQueryPlayer.generate_track_for_range`) -/

/-- `scale_delta` inside `generate_track_for_range`:
`int((delta / factor) * ticks_per_beat)` with Python float division and
truncation toward zero. -/
def scaleDelta (factor ticksPerBeat : ℤ) (delta : ℤ) : ℤ :=
  pyTrunc (((delta : ℚ) / (factor : ℚ)) * (ticksPerBeat : ℚ))

/-- The sample loop of `generate_track_for_range`: for each `(timestamp,
value)` compute `delta = timestamp - last_timestamp`, run note-change
detection with `msg_time = scale_delta(delta)`, and only when messages were
produced extend the track and advance `last_timestamp`.  State is
`(player, last_timestamp, track)`; `none` models the IndexError a failing
`clamp` raises (fatal in batch mode). -/
def trackLoop (factor ticksPerBeat : ℤ) :
    List (ℤ × ℚ) → Player × ℤ × List Msg → Option (Player × ℤ × List Msg)
  | [], st => some st
  | (timestamp, value) :: rest, (p, lastTimestamp, track) =>
    let delta := timestamp - lastTimestamp
    match p.instrument.clamp value with
    | none => none
    | some note =>
      let r := getMessages p note (scaleDelta factor ticksPerBeat delta)
      if r.1.isEmpty then
        trackLoop factor ticksPerBeat rest (r.2, lastTimestamp, track)
      else
        trackLoop factor ticksPerBeat rest (r.2, timestamp, track ++ r.1)

/-- `generate_track_for_range` (the query-URL construction and `step`
parameter only affect the external HTTP fetch and are outside the embedding;
`samples` is the fetched `result[0]["values"]`).  The track starts with the
set_tempo meta message (`mido.bpm2tempo(60) = 1000000`) and the program
change, then the sample loop runs, and finally `_off_message` is emitted with
`msg_time = scale_delta(end - last_timestamp)`.  Returns the track together
with the final player state and final `last_timestamp`. -/
def generateTrackForRange (p : Player) (samples : List (ℤ × ℚ))
    (start finish factor ticksPerBeat : ℤ) : Option (List Msg × Player × ℤ) :=
  let track0 := [Msg.setTempo 1000000 0, programChangeMessage p]
  match trackLoop factor ticksPerBeat samples (p, start, track0) with
  | none => none
  | some (p2, lastTimestamp, track) =>
    some (track ++ offMessage p2 (scaleDelta factor ticksPerBeat (finish - lastTimestamp)),
          p2, lastTimestamp)

/-- Sum of the delta-time fields of a track. -/
def trackTimeSum (track : List Msg) : ℤ :=
  (track.map Msg.time).sum

/-- The note of the last note-on message of a track (none if no note was ever
sounded). -/
def lastNoteOn (track : List Msg) : Option ℤ :=
  track.foldl (fun acc m => match m with | .noteOn _ n _ _ => some n | _ => acc) none

/-- Number of note-on messages in a track: the builder emits exactly one
note-on per observed state change, so this counts state changes. -/
def noteOnCount (track : List Msg) : ℕ :=
  track.countP fun m => match m with | .noteOn _ _ _ _ => true | _ => false

/-! ## Live scheduler (`LiveQueryPlayer` and the `live_main` loop) -/

/-- The exceptions `live_main` catches around `player.prep()`: IndexError
(empty result set, or an out-of-range `clamp` index) and
requests.exceptions.ConnectionError. -/
inductive FetchErr where
  | indexError
  | connectionError
deriving Repr, DecidableEq

/-- A `LiveQueryPlayer`: the shared player state plus `_next_messages`. -/
structure LivePlayer where
  player : Player
  nextMessages : List Msg
deriving Repr, DecidableEq

/-- One guarded `player.prep()` call from `live_main`'s prep loop: on a fetch
or parse failure, or an IndexError inside `clamp`, the exception is caught by
`live_main` before any state was mutated, so the player is returned unchanged;
on success `_next_messages` is set to `_get_messages(note)` (msg_time 0). -/
def prepStep (lp : LivePlayer) (fetch : Except FetchErr ℚ) : LivePlayer :=
  match fetch with
  | .error _ => lp
  | .ok value =>
    match lp.player.instrument.clamp value with
    | none => lp
    | some note =>
      let r := getMessages lp.player note 0
      { player := r.2, nextMessages := r.1 }

/-- The prep phase of one `live_main` cycle: each player is prepped in order
with its own fetch outcome, failures caught per player. -/
def prepPhase (ps : List LivePlayer) (os : List (Except FetchErr ℚ)) : List LivePlayer :=
  (ps.zip os).map fun x => prepStep x.1 x.2

/-- `LiveQueryPlayer.tick`: sends `_next_messages` and resets it to `[]`. -/
def tickStep (lp : LivePlayer) : List Msg × LivePlayer :=
  (lp.nextMessages, { player := lp.player, nextMessages := [] })

/-- The fixed cadence of the live loop (`start + 5`). -/
def CADENCE : ℚ := 5

/-- `live_main` drift compensation: `delta = (start + 5) - time.time()`, i.e.
cadence minus the elapsed prep+tick time, passed to `time.sleep` with no
clamping. -/
def loopSleepDelta (elapsed : ℚ) : ℚ :=
  CADENCE - elapsed

/-- The sleep call at the end of one `live_main` cycle. -/
def liveCycleSleep (elapsed : ℚ) : Except String Unit :=
  pySleep (loopSleepDelta elapsed)

/-! ## Helper lemmas -/

lemma pyRound_cases (q : ℚ) :
    pyRound q = ⌊q⌋ ∨ (pyRound q = ⌊q⌋ + 1 ∧ 1/2 ≤ q - ⌊q⌋) := by
  unfold pyRound
  split_ifs with h1 h2 h3
  · exact Or.inl rfl
  · exact Or.inr ⟨rfl, le_of_lt h2⟩
  · exact Or.inl rfl
  · exact Or.inr ⟨rfl, le_of_not_lt h1⟩

lemma pyRound_nonneg {q : ℚ} (h : 0 ≤ q) : 0 ≤ pyRound q := by
  rcases pyRound_cases q with hc | ⟨hc, _⟩ <;> rw [hc]
  · exact Int.le_floor.mpr (by exact_mod_cast h)
  · have : (0 : ℤ) ≤ ⌊q⌋ := Int.le_floor.mpr (by exact_mod_cast h)
    omega

lemma pyRound_le_of_le {q : ℚ} {m : ℤ} (h : q ≤ m) : pyRound q ≤ m := by
  have hf : ⌊q⌋ ≤ m := by
    have := Int.floor_mono h
    simpa using this
  rcases pyRound_cases q with hc | ⟨hc, hhalf⟩ <;> rw [hc]
  · exact hf
  · -- q is at least ⌊q⌋ + 1/2, so ⌊q⌋ < m and ⌊q⌋ + 1 ≤ m
    have h2 : (⌊q⌋ : ℚ) + 1/2 ≤ (m : ℚ) := by linarith
    have h3 : (⌊q⌋ : ℚ) < (m : ℚ) := by linarith
    have : ⌊q⌋ < m := by exact_mod_cast h3
    omega

lemma pyRound_intCast (z : ℤ) : pyRound (z : ℚ) = z := by
  unfold pyRound
  rw [Int.floor_intCast]
  norm_num

lemma pyTrunc_intCast (z : ℤ) : pyTrunc (z : ℚ) = z := by
  unfold pyTrunc
  split_ifs <;> simp

lemma pyTrunc_eq_floor {q : ℚ} (h : 0 ≤ q) : pyTrunc q = ⌊q⌋ :=
  if_pos h

lemma pyGetElem_nonneg {α : Type} (xs : List α) (i : ℤ) (h0 : 0 ≤ i)
    (hlt : i < (xs.length : ℤ)) :
    ∃ k : ℕ, (k : ℤ) = i ∧ k < xs.length ∧ pyGetElem xs i = xs.get? k := by
  refine ⟨i.toNat, by omega, by omega, ?_⟩
  unfold pyGetElem
  rw [if_pos h0]

lemma get?_pred_length {α : Type} (xs : List α) (hn : xs ≠ []) :
    xs.get? (xs.length - 1) = xs.getLast? := by
  induction xs with
  | nil => simp at hn
  | cons a l ih =>
    cases l with
    | nil => simp
    | cons b m =>
      have h1 : (a :: b :: m).length - 1 = (b :: m).length := by simp
      rw [h1]
      have h2 : (b :: m).length = ((b :: m).length - 1) + 1 := by simp
      rw [h2, List.get?_cons_succ, List.getLast?_cons_cons]
      exact ih (by simp)

lemma clamp_total (inst : Instrument) (v : ℚ) (hn : inst.availablePitches ≠ [])
    (h0 : 0 ≤ v) (h1 : v ≤ 1) :
    ∃ note, inst.clamp v = some note ∧ note ∈ inst.availablePitches := by
  set xs := inst.availablePitches with hxs
  have hlen : 1 ≤ xs.length := List.length_pos.mpr hn
  set x : ℚ := (((xs.length : ℤ) - 1 : ℤ) : ℚ) * v with hx
  have hx0 : 0 ≤ x := by
    apply mul_nonneg _ h0
    have : (1 : ℤ) ≤ (xs.length : ℤ) := by exact_mod_cast hlen
    push_cast
    have : (1 : ℚ) ≤ (xs.length : ℚ) := by exact_mod_cast hlen
    linarith
  have hx1 : x ≤ ((xs.length : ℤ) - 1 : ℤ) := by
    have hc : (0 : ℚ) ≤ (((xs.length : ℤ) - 1 : ℤ) : ℚ) := by
      have : (1 : ℚ) ≤ (xs.length : ℚ) := by exact_mod_cast hlen
      push_cast
      linarith
    calc x ≤ (((xs.length : ℤ) - 1 : ℤ) : ℚ) * 1 := by
              exact mul_le_mul_of_nonneg_left h1 hc
      _ = (((xs.length : ℤ) - 1 : ℤ) : ℚ) := by ring
  have hidx0 : 0 ≤ pyRound x := pyRound_nonneg hx0
  have hidx1 : pyRound x ≤ (xs.length : ℤ) - 1 := pyRound_le_of_le hx1
  have hlt : pyRound x < (xs.length : ℤ) := by omega
  obtain ⟨k, hk, hklt, hget⟩ := pyGetElem_nonneg xs (pyRound x) hidx0 hlt
  refine ⟨xs.get ⟨k, hklt⟩, ?_, List.get_mem xs _ _⟩
  show pyGetElem xs (pyRound x) = _
  rw [hget, List.get?_eq_get hklt]

/-- Structure eta for Player: updating lastNote to its current value is the
identity. -/
lemma player_eta (p : Player) (n : ℤ) (h : p.lastNote = some n) :
    { p with lastNote := some n } = p := by
  cases p
  simp only [Player.mk.injEq]
  simp_all

lemma getMessages_of_eq (p : Player) (note : ℤ) (t : ℤ) (h : p.lastNote = some note) :
    getMessages p note t = ([], p) := by
  unfold getMessages
  rw [h]
  simp [player_eta p note h]

lemma getMessages_of_none (p : Player) (note : ℤ) (t : ℤ) (h : p.lastNote = none) :
    getMessages p note t =
      ([Msg.noteOn p.channel note 127 t], { p with lastNote := some note }) := by
  unfold getMessages offMessage
  rw [h]
  simp

lemma getMessages_of_ne (p : Player) (note old : ℤ) (t : ℤ)
    (h : p.lastNote = some old) (hne : note ≠ old) :
    getMessages p note t =
      ([Msg.noteOff p.channel old t, Msg.noteOn p.channel note 127 0],
       { p with lastNote := some note }) := by
  unfold getMessages offMessage
  rw [h]
  simp [hne]

lemma getMessages_snd (p : Player) (note : ℤ) (t : ℤ) :
    (getMessages p note t).2 = { p with lastNote := some note } := rfl

lemma lastNoteOn_concat_on (track : List Msg) (ch n vel t : ℤ) :
    lastNoteOn (track ++ [Msg.noteOn ch n vel t]) = some n := by
  unfold lastNoteOn
  rw [List.foldl_append]
  rfl

lemma lastNoteOn_concat_off_on (track : List Msg) (ch1 o t1 ch2 n vel t2 : ℤ) :
    lastNoteOn (track ++ [Msg.noteOff ch1 o t1, Msg.noteOn ch2 n vel t2]) = some n := by
  unfold lastNoteOn
  rw [List.foldl_append]
  rfl

lemma lastNoteOn_concat_off (track : List Msg) (ch n t : ℤ) :
    lastNoteOn (track ++ [Msg.noteOff ch n t]) = lastNoteOn track := by
  unfold lastNoteOn
  rw [List.foldl_append]
  rfl

/-- Walking the sample loop preserves: the channel, the agreement between the
track's last note-on and the player's `_last_note`, and (once any sample has
been processed) the fact that `_last_note` is set. -/
lemma trackLoop_some_inv (factor ticks : ℤ) :
    ∀ (samples : List (ℤ × ℚ)) (p : Player) (lt : ℤ) (track : List Msg)
      (p2 : Player) (lt2 : ℤ) (track2 : List Msg),
      trackLoop factor ticks samples (p, lt, track) = some (p2, lt2, track2) →
      p2.channel = p.channel
      ∧ (lastNoteOn track = p.lastNote → lastNoteOn track2 = p2.lastNote)
      ∧ ((p.lastNote.isSome ∨ samples ≠ []) → p2.lastNote.isSome) := by
  intro samples
  induction samples with
  | nil =>
    intro p lt track p2 lt2 track2 h
    simp only [trackLoop, Option.some.injEq, Prod.mk.injEq] at h
    obtain ⟨h1, h2, h3⟩ := h
    subst h1; subst h3
    refine ⟨rfl, fun hi => hi, fun hor => ?_⟩
    rcases hor with hs | hne
    · exact hs
    · exact absurd rfl hne
  | cons s rest ih =>
    intro p lt track p2 lt2 track2 h
    obtain ⟨ts, v⟩ := s
    cases hc : p.instrument.clamp v with
    | none =>
      simp only [trackLoop, hc] at h
      simp at h
    | some note =>
      simp only [trackLoop, hc] at h
      by_cases hlast : p.lastNote = some note
      · rw [getMessages_of_eq p note _ hlast] at h
        simp only [List.isEmpty_nil, if_true] at h
        obtain ⟨ch, inv, som⟩ := ih p lt track p2 lt2 track2 h
        exact ⟨ch, inv, fun _ => som (Or.inl (by rw [hlast]; rfl))⟩
      · cases hpl : p.lastNote with
        | none =>
          rw [getMessages_of_none p note _ hpl] at h
          simp only [List.isEmpty_cons, if_false, Bool.false_eq_true] at h
          obtain ⟨ch, inv, som⟩ := ih _ ts _ p2 lt2 track2 h
          refine ⟨ch, fun _ => inv ?_, fun _ => som (Or.inl rfl)⟩
          exact lastNoteOn_concat_on track p.channel note 127 _
        | some old =>
          have hne : note ≠ old := fun he => hlast (by rw [hpl, he])
          rw [getMessages_of_ne p note old _ hpl hne] at h
          simp only [List.isEmpty_cons, if_false, Bool.false_eq_true] at h
          obtain ⟨ch, inv, som⟩ := ih _ ts _ p2 lt2 track2 h
          refine ⟨ch, fun _ => inv ?_, fun _ => som (Or.inl rfl)⟩
          exact lastNoteOn_concat_off_on track p.channel old _ p.channel note 127 0

lemma floor_add_floor_le (a b : ℚ) : ⌊a⌋ + ⌊b⌋ ≤ ⌊a + b⌋ := by
  apply Int.le_floor.mpr
  push_cast
  exact add_le_add (Int.floor_le a) (Int.floor_le b)

lemma floor_add_le (a b : ℚ) : ⌊a + b⌋ ≤ ⌊a⌋ + ⌊b⌋ + 1 := by
  have ha := Int.lt_floor_add_one a
  have hb := Int.lt_floor_add_one b
  have hab : a + b < ((⌊a⌋ + ⌊b⌋ + 2 : ℤ) : ℚ) := by push_cast; linarith
  have h2 := Int.floor_lt.mpr hab
  omega

/-- The ideal scaled length of an integer time span: floor of
`x * ticks / factor`.  `scaleDelta` agrees with it on non-negative spans. -/
def floorScale (factor ticks x : ℤ) : ℤ :=
  ⌊(x : ℚ) * ((ticks : ℚ) / (factor : ℚ))⌋

lemma floorScale_superadd (factor ticks a b : ℤ) :
    floorScale factor ticks a + floorScale factor ticks b ≤ floorScale factor ticks (a + b)
    ∧ floorScale factor ticks (a + b) ≤
        floorScale factor ticks a + floorScale factor ticks b + 1 := by
  unfold floorScale
  have hsplit : ((a + b : ℤ) : ℚ) * ((ticks : ℚ) / (factor : ℚ)) =
      (a : ℚ) * ((ticks : ℚ) / (factor : ℚ)) + (b : ℚ) * ((ticks : ℚ) / (factor : ℚ)) := by
    push_cast
    ring
  constructor
  · rw [hsplit]
    exact floor_add_floor_le _ _
  · rw [hsplit]
    exact floor_add_le _ _

lemma scaleDelta_eq_floorScale (factor ticks d : ℤ) (hf : 0 < factor) (ht : 0 ≤ ticks)
    (hd : 0 ≤ d) :
    scaleDelta factor ticks d = floorScale factor ticks d := by
  unfold scaleDelta floorScale
  have h1 : (0 : ℚ) ≤ (d : ℚ) := by exact_mod_cast hd
  have h2 : (0 : ℚ) ≤ (factor : ℚ) := by exact_mod_cast le_of_lt hf
  have h3 : (0 : ℚ) ≤ (ticks : ℚ) := by exact_mod_cast ht
  rw [pyTrunc_eq_floor (mul_nonneg (div_nonneg h1 h2) h3)]
  congr 1
  ring

lemma trackTimeSum_append (a b : List Msg) :
    trackTimeSum (a ++ b) = trackTimeSum a + trackTimeSum b := by
  unfold trackTimeSum
  rw [List.map_append, List.sum_append]

lemma chain_le_skip (a b : ℤ) (l : List ℤ)
    (h : List.Chain' (fun x y => x ≤ y) (a :: b :: l)) :
    List.Chain' (fun x y => x ≤ y) (a :: l) := by
  obtain ⟨hab, hbl⟩ := List.chain'_cons.mp h
  cases l with
  | nil => simp
  | cons c m =>
    obtain ⟨hbc, hcm⟩ := List.chain'_cons.mp hbl
    exact List.chain'_cons.mpr ⟨le_trans hab hbc, hcm⟩

/-- Walking the sample loop preserves the floor bounds that relate the track's
accumulated delta-time sum to the scaled distance from `start` to the current
`last_timestamp`: each no-op sample changes nothing, and each state-changing
sample adds one floored term (losing at most one tick) and at least one track
event. -/
lemma trackLoop_sum_bounds (factor ticks start finish : ℤ)
    (hf : 0 < factor) (ht : 0 ≤ ticks) :
    ∀ (samples : List (ℤ × ℚ)) (p : Player) (lt : ℤ) (track : List Msg)
      (p2 : Player) (lt2 : ℤ) (track2 : List Msg),
      trackLoop factor ticks samples (p, lt, track) = some (p2, lt2, track2) →
      List.Chain' (fun a b => a ≤ b) (lt :: samples.map Prod.fst) →
      (∀ t ∈ samples.map Prod.fst, t ≤ finish) →
      lt ≤ finish →
      trackTimeSum track ≤ floorScale factor ticks (lt - start) →
      floorScale factor ticks (lt - start) ≤
        trackTimeSum track + (track.length : ℤ) - 2 →
      trackTimeSum track2 ≤ floorScale factor ticks (lt2 - start)
        ∧ floorScale factor ticks (lt2 - start) ≤
            trackTimeSum track2 + (track2.length : ℤ) - 2
        ∧ lt2 ≤ finish := by
  intro samples
  induction samples with
  | nil =>
    intro p lt track p2 lt2 track2 h hchain hend hlt hA hB
    simp only [trackLoop, Option.some.injEq, Prod.mk.injEq] at h
    obtain ⟨_, h2, h3⟩ := h
    subst h2; subst h3
    exact ⟨hA, hB, hlt⟩
  | cons s rest ih =>
    intro p lt track p2 lt2 track2 h hchain hend hlt hA hB
    obtain ⟨ts, v⟩ := s
    have hlts : lt ≤ ts := (List.chain'_cons.mp hchain).1
    have hchainrest : List.Chain' (fun a b => a ≤ b) (ts :: rest.map Prod.fst) :=
      (List.chain'_cons.mp hchain).2
    have hendrest : ∀ t ∈ rest.map Prod.fst, t ≤ finish :=
      fun t htm => hend t (List.mem_cons_of_mem _ htm)
    have htsfin : ts ≤ finish := hend ts (List.mem_cons_self _ _)
    cases hc : p.instrument.clamp v with
    | none =>
      simp only [trackLoop, hc] at h
      simp at h
    | some note =>
      simp only [trackLoop, hc] at h
      have hT : scaleDelta factor ticks (ts - lt) = floorScale factor ticks (ts - lt) :=
        scaleDelta_eq_floorScale factor ticks (ts - lt) hf ht (by omega)
      have hsum : lt - start + (ts - lt) = ts - start := by omega
      have hsup := floorScale_superadd factor ticks (lt - start) (ts - lt)
      rw [hsum] at hsup
      obtain ⟨hup, hdown⟩ := hsup
      by_cases hlast : p.lastNote = some note
      · rw [getMessages_of_eq p note _ hlast] at h
        simp only [List.isEmpty_nil, if_true] at h
        exact ih p lt track p2 lt2 track2 h
          (chain_le_skip lt ts _ hchain) hendrest hlt hA hB
      · cases hpl : p.lastNote with
        | none =>
          rw [getMessages_of_none p note _ hpl] at h
          simp only [List.isEmpty_cons, if_false, Bool.false_eq_true] at h
          have hone : trackTimeSum
              [Msg.noteOn p.channel note 127 (scaleDelta factor ticks (ts - lt))] =
              scaleDelta factor ticks (ts - lt) := by
            simp [trackTimeSum, Msg.time]
          apply ih _ ts _ p2 lt2 track2 h hchainrest hendrest htsfin
          · rw [trackTimeSum_append, hone, hT]
            omega
          · rw [trackTimeSum_append, hone, hT]
            simp only [List.length_append, List.length_cons, List.length_nil]
            push_cast
            omega
        | some old =>
          have hneq : note ≠ old := fun he => hlast (by rw [hpl, he])
          rw [getMessages_of_ne p note old _ hpl hneq] at h
          simp only [List.isEmpty_cons, if_false, Bool.false_eq_true] at h
          have htwo : trackTimeSum
              [Msg.noteOff p.channel old (scaleDelta factor ticks (ts - lt)),
               Msg.noteOn p.channel note 127 0] =
              scaleDelta factor ticks (ts - lt) := by
            simp [trackTimeSum, Msg.time]
          apply ih _ ts _ p2 lt2 track2 h hchainrest hendrest htsfin
          · rw [trackTimeSum_append, htwo, hT]
            omega
          · rw [trackTimeSum_append, htwo, hT]
            simp only [List.length_append, List.length_cons, List.length_nil]
            push_cast
            omega

/-! ## Concrete fixtures used by witnesses and counterexamples -/

/-- A three-pitch instrument (C major triad) used by concrete scenarios. -/
def triadInst : Instrument :=
  { name := "lead", programNumber := 0, availablePitches := [60, 64, 67] }

/-- A two-pitch instrument used by the negative-index scenario. -/
def duoInst : Instrument :=
  { name := "bass", programNumber := 32, availablePitches := [60, 62] }

/-- An instrument whose value set is empty. -/
def emptyInst : Instrument :=
  { name := "empty", programNumber := 0, availablePitches := [] }

/-- The batch player of the C2 scenario: fresh voice on channel 0. -/
def c2Player : Player := { channel := 0, instrument := triadInst, lastNote := none }

/-- The C2 sample sequence. -/
def c2Samples : List (ℤ × ℚ) := [(0, 0), (10, 0), (20, 1)]

/-- The track the code actually builds for the C2 scenario. -/
def c2ExpectedTrack : List Msg :=
  [Msg.setTempo 1000000 0, Msg.programChange 0 0 0, Msg.noteOn 0 60 127 0,
   Msg.noteOff 0 60 9600, Msg.noteOn 0 67 127 0, Msg.noteOff 0 67 0]

/-- The player state after building the C2 track. -/
def c2FinalPlayer : Player := { channel := 0, instrument := triadInst, lastNote := some 67 }

/-- The C2 track as extracted from the builder's optional result. -/
def c2Track : List Msg :=
  match generateTrackForRange c2Player c2Samples 0 20 1 480 with
  | some r => r.1
  | none => []

/-- Non-meta messages of a track (the spec's Event alphabet: program-change,
note-on, note-off). -/
def midiEvents (track : List Msg) : List Msg :=
  track.filter fun m => match m with | .setTempo _ _ => false | _ => true

/-- A player whose last note is already the lowest triad pitch. -/
def idemPlayer : Player := { channel := 0, instrument := triadInst, lastNote := some 60 }

lemma triad_clamp_zero : triadInst.clamp 0 = some 60 := by
  norm_num [Instrument.clamp, triadInst, pyRound, pyGetElem]

lemma triad_clamp_one : triadInst.clamp 1 = some 67 := by
  norm_num [Instrument.clamp, triadInst, pyRound, pyGetElem]
  decide

lemma scaleDelta_c2_zero : scaleDelta 1 480 0 = 0 := by
  norm_num [scaleDelta, pyTrunc]

lemma scaleDelta_c2_twenty : scaleDelta 1 480 20 = 9600 := by
  norm_num [scaleDelta, pyTrunc]

/-- Full evaluation of the builder on the C2 scenario. -/
lemma c2_eval :
    generateTrackForRange c2Player c2Samples 0 20 1 480 =
      some (c2ExpectedTrack, c2FinalPlayer, 20) := by
  have hz := scaleDelta_c2_zero
  have ht := scaleDelta_c2_twenty
  have h0 := triad_clamp_zero
  have h1 := triad_clamp_one
  have hprog : triadInst.programNumber = 0 := rfl
  have hne : getMessages { channel := 0, instrument := triadInst, lastNote := some 60 } 67 9600 =
      ([Msg.noteOff 0 60 9600, Msg.noteOn 0 67 127 0],
       { channel := 0, instrument := triadInst, lastNote := some 67 }) := by
    rw [getMessages_of_ne _ 67 60 9600 rfl (by decide)]
  norm_num [generateTrackForRange, trackLoop, c2Samples, c2Player, c2ExpectedTrack,
    c2FinalPlayer, h0, h1, hz, ht, hne, hprog, getMessages_of_none, getMessages_of_eq,
    offMessage, programChangeMessage]

/-! ## Claims -/

/-- Claim C1 (code bug): the spec's live scheduler sleeps for
`max(0, cadence - elapsed)`, so a 7-unit prep+tick cycle gives a zero sleep
and no error.  The code computes `(start + 5) - time.time()` with no clamping:
for elapsed = 7 the sleep duration is -2, and `time.sleep(-2)` raises
ValueError (terminating the loop) instead of proceeding immediately. -/
theorem live_sleep_bug_at_elapsed_seven :
    loopSleepDelta 7 = -2
    ∧ liveCycleSleep 7 = Except.error "ValueError: sleep length must be non-negative"
    ∧ max 0 (CADENCE - 7) = 0 := by
  refine ⟨?_, ?_, ?_⟩
  · norm_num [loopSleepDelta, CADENCE]
  · show pySleep (loopSleepDelta 7) = _
    have h : loopSleepDelta 7 = -2 := by norm_num [loopSleepDelta, CADENCE]
    rw [h]
    unfold pySleep
    norm_num
  · have : CADENCE - 7 = -2 := by norm_num [CADENCE]
    rw [this]
    norm_num

/-- Claim C3 counterexample: an instrument with an empty value set is
constructed without any failure (the constructor performs no validation), and
`clamp` on that successfully constructed instrument then signals the
index-out-of-range failure at query time. -/
theorem empty_value_set_constructed_unchecked :
    instrumentInit "empty" 0 [] = some emptyInst ∧ emptyInst.clamp 0 = none := by
  constructor
  · rfl
  · unfold Instrument.clamp pyGetElem emptyInst
    norm_num

/-- Claim C3 amended: construction never rejects any value set (empty
included); `clamp` on an empty value set signals index-out-of-range at query
time; for a value set with n >= 1 and a value in [0,1], `clamp` never signals
index-out-of-range. -/
theorem clamp_failure_timing :
    (∀ (name : String) (prog : ℤ) (pitches : List ℤ),
        (instrumentInit name prog pitches).isSome)
    ∧ (∀ (inst : Instrument), inst.availablePitches = [] →
        ∀ v : ℚ, inst.clamp v = none)
    ∧ (∀ (inst : Instrument) (v : ℚ), inst.availablePitches ≠ [] →
        0 ≤ v → v ≤ 1 → (inst.clamp v).isSome) := by
  refine ⟨fun _ _ _ => rfl, ?_, ?_⟩
  · intro inst hempty v
    unfold Instrument.clamp pyGetElem
    rw [hempty]
    simp
  · intro inst v hn h0 h1
    obtain ⟨note, hnote, _⟩ := clamp_total inst v hn h0 h1
    rw [hnote]
    rfl

/-- Claim C3 witness: instantiates the amended claim at the triad instrument
and value 1/2. -/
theorem clamp_failure_timing_witness :
    (instrumentInit "empty" 0 []).isSome
    ∧ emptyInst.clamp (3/4) = none
    ∧ (triadInst.clamp (1/2)).isSome := by
  refine ⟨clamp_failure_timing.1 "empty" 0 [], ?_, ?_⟩
  · exact clamp_failure_timing.2.1 emptyInst rfl (3/4)
  · exact clamp_failure_timing.2.2 triadInst (1/2) (by decide) (by norm_num) (by norm_num)

/-- Claim C4: for every quantizer with a non-empty value set and every value
in [0,1], `clamp` computes `round((n-1)*value)` and returns an element of the
value set; `clamp 0` returns the first element and `clamp 1` the last. -/
theorem clamp_total_first_last (inst : Instrument) (v : ℚ)
    (hn : inst.availablePitches ≠ []) (h0 : 0 ≤ v) (h1 : v ≤ 1) :
    (∃ note, inst.clamp v = some note ∧ note ∈ inst.availablePitches)
    ∧ (∃ fst, inst.availablePitches.head? = some fst ∧ inst.clamp 0 = some fst)
    ∧ (∃ lst, inst.availablePitches.getLast? = some lst ∧ inst.clamp 1 = some lst) := by
  refine ⟨clamp_total inst v hn h0 h1, ?_, ?_⟩
  · -- clamp 0: index round((n-1)*0) = 0, list subscript 0 is the head
    cases hxs : inst.availablePitches with
    | nil => exact absurd hxs hn
    | cons a l =>
      refine ⟨a, by simp, ?_⟩
      unfold Instrument.clamp
      have hr : pyRound ((((inst.availablePitches.length : ℤ) - 1 : ℤ) : ℚ) * 0) = 0 := by
        rw [mul_zero]
        have : ((0 : ℤ) : ℚ) = (0 : ℚ) := by norm_num
        rw [← this, pyRound_intCast]
      rw [hr]
      unfold pyGetElem
      rw [if_pos le_rfl]
      rw [hxs]
      rfl
  · -- clamp 1: index round((n-1)*1) = n-1, list subscript n-1 is the last
    have hlen : 1 ≤ inst.availablePitches.length := List.length_pos.mpr hn
    have hlast := get?_pred_length inst.availablePitches hn
    have hex : ∃ lst, inst.availablePitches.getLast? = some lst := by
      cases hxs : inst.availablePitches with
      | nil => exact absurd hxs hn
      | cons a l => exact ⟨(a :: l).getLast (by simp), List.getLast?_eq_getLast _ _⟩
    obtain ⟨lst, hlst⟩ := hex
    refine ⟨lst, hlst, ?_⟩
    unfold Instrument.clamp
    have hr : pyRound ((((inst.availablePitches.length : ℤ) - 1 : ℤ) : ℚ) * 1) =
        (inst.availablePitches.length : ℤ) - 1 := by
      rw [mul_one, pyRound_intCast]
    rw [hr]
    unfold pyGetElem
    rw [if_pos (by omega : (0 : ℤ) ≤ (inst.availablePitches.length : ℤ) - 1)]
    have htn : ((inst.availablePitches.length : ℤ) - 1).toNat =
        inst.availablePitches.length - 1 := by omega
    rw [htn, hlast, hlst]

/-- Claim C4 witness: the triad instrument at value 1/2; clamp 0 gives 60 and
clamp 1 gives 67. -/
theorem clamp_total_first_last_witness :
    (∃ note, triadInst.clamp (1/2) = some note ∧ note ∈ triadInst.availablePitches)
    ∧ (∃ fst, triadInst.availablePitches.head? = some fst ∧ triadInst.clamp 0 = some fst)
    ∧ (∃ lst, triadInst.availablePitches.getLast? = some lst ∧ triadInst.clamp 1 = some lst) :=
  clamp_total_first_last triadInst (1/2) (by decide) (by norm_num) (by norm_num)

/-- Claim C2 counterexample: on samples [(0,0),(10,0),(20,1)] with start=0,
end=20, factor=1, ticksPerUnit=480 the builder observes TWO state changes (the
very first sample already changes state, from no-note to the lowest pitch),
not one, and the track carries five non-meta events, not three. -/
theorem c2_single_state_change_false :
    noteOnCount c2Track = 2 ∧ ¬ (noteOnCount c2Track = 1)
    ∧ (midiEvents c2Track).length = 5 ∧ ¬ ((midiEvents c2Track).length = 3) := by
  have h : c2Track = c2ExpectedTrack := by
    unfold c2Track
    rw [c2_eval]
  rw [h]
  refine ⟨by decide, by decide, by decide, by decide⟩

/-- Claim C2 amended: the same scenario produces two state changes (t=0 and
t=20); after the set-tempo meta preamble the track is program-change,
note-on(60) at offset 0, note-off(60) at offset 9600 (the t=10 sample is a
no-op so the delta accumulates from t=0), note-on(67) at offset 0, and a final
note-off(67) at offset 0. -/
theorem c2_track_contents :
    generateTrackForRange c2Player c2Samples 0 20 1 480 =
      some (c2ExpectedTrack, c2FinalPlayer, 20)
    ∧ noteOnCount c2ExpectedTrack = 2 := by
  exact ⟨c2_eval, by decide⟩

/-- Claim C5: voice note-change detection is idempotent.  If an update
succeeded, repeating it with the same value emits no events and leaves the
state unchanged; and whenever the quantized note equals the stored last note,
the update returns no events and the state is untouched. -/
theorem voice_update_idempotent (p : Player) (v : ℚ) (t1 t2 : ℤ) (msgs1 : List Msg)
    (p1 : Player) (nt : ℤ) (h : updateVoice p v t1 = some (msgs1, p1)) :
    updateVoice p1 v t2 = some ([], p1)
    ∧ (p.instrument.clamp v = some nt → p.lastNote = some nt →
        msgs1 = [] ∧ p1 = p) := by
  unfold updateVoice at h
  cases hc : p.instrument.clamp v with
  | none => rw [hc] at h; exact absurd h (by simp)
  | some note =>
    rw [hc] at h
    simp only [Option.some.injEq] at h
    have hp1 : p1 = { p with lastNote := some note } := by
      have h2 := congrArg Prod.snd h
      rw [getMessages_snd] at h2
      exact h2.symm
    constructor
    · unfold updateVoice
      have hinst : p1.instrument = p.instrument := by rw [hp1]
      rw [hinst, hc]
      show some (getMessages p1 note t2) = some ([], p1)
      rw [getMessages_of_eq p1 note t2 (by rw [hp1])]
    · intro hcv hlastp
      injection hcv with hnn
      rw [← hnn] at hlastp
      rw [getMessages_of_eq p note t1 hlastp] at h
      exact ⟨(congrArg Prod.fst h).symm, (congrArg Prod.snd h).symm⟩

/-- Claim C5 witness: a player already sounding note 60 updated twice with
value 0 (which quantizes to 60). -/
theorem voice_update_idempotent_witness :
    updateVoice idemPlayer 0 7 = some ([], idemPlayer)
    ∧ (idemPlayer.instrument.clamp 0 = some 60 → idemPlayer.lastNote = some 60 →
        ([] : List Msg) = [] ∧ idemPlayer = idemPlayer) := by
  have h : updateVoice idemPlayer 0 3 = some ([], idemPlayer) := by
    unfold updateVoice
    have hcl : idemPlayer.instrument.clamp 0 = some 60 := triad_clamp_zero
    rw [hcl]
    show some (getMessages idemPlayer 60 3) = _
    rw [getMessages_of_eq idemPlayer 60 3 rfl]
  exact voice_update_idempotent idemPlayer 0 3 7 [] idemPlayer 60 h

/-- Claim C6: whenever a note change occurs while a previous note exists, the
returned events are exactly the off for the old note immediately followed by
the on for the new note; the off carries the (scaled) msg_time and the on
carries 0. -/
theorem off_before_on (p : Player) (note old : ℤ) (t : ℤ)
    (hlast : p.lastNote = some old) (hne : note ≠ old) :
    (getMessages p note t).1 =
      [Msg.noteOff p.channel old t, Msg.noteOn p.channel note 127 0] := by
  rw [getMessages_of_ne p note old t hlast hne]

/-- Claim C6 witness: the idemPlayer (sounding 60) switching to 67 with a
scaled delta of 9600. -/
theorem off_before_on_witness :
    idemPlayer.lastNote = some 60 ∧ (67 : ℤ) ≠ 60
    ∧ (getMessages idemPlayer 67 9600).1 =
        [Msg.noteOff idemPlayer.channel 60 9600, Msg.noteOn idemPlayer.channel 67 127 0] :=
  ⟨rfl, by decide, off_before_on idemPlayer 67 60 9600 rfl (by decide)⟩

/-- A live voice already sounding note 60, with no pending messages (the state
every voice is in right after `tick`, which always clears `_next_messages`). -/
def liveVoiceA : LivePlayer := { player := idemPlayer, nextMessages := [] }

/-- A second live voice on channel 1 with a fresh note state. -/
def liveVoiceB : LivePlayer :=
  { player := { channel := 1, instrument := triadInst, lastNote := none }, nextMessages := [] }

/-- Claim C8: in the live prep phase, a voice whose fetch fails is left with
`last_emitted_value` (indeed its whole player state) unchanged and empty
pending events, while every other voice is still prepped with its own
outcome.  The hypothesis `lp.nextMessages = []` records that each prep is
preceded either by `__init__` or by `tick`, both of which leave
`_next_messages` empty. -/
theorem prep_failure_isolated (pre post : List LivePlayer) (lp : LivePlayer)
    (opre opost : List (Except FetchErr ℚ)) (e : FetchErr)
    (hlen : pre.length = opre.length) (hempty : lp.nextMessages = []) :
    prepPhase (pre ++ lp :: post) (opre ++ Except.error e :: opost) =
      prepPhase pre opre
        ++ { player := lp.player, nextMessages := [] } :: prepPhase post opost := by
  unfold prepPhase
  rw [List.zip_append hlen, List.map_append]
  congr 1
  rw [List.zip_cons_cons, List.map_cons]
  congr 1
  show prepStep lp (Except.error e) = _
  have heta : lp = { player := lp.player, nextMessages := [] } := by
    cases lp with
    | mk pl nx =>
      simp only [LivePlayer.mk.injEq]
      simpa using hempty
  exact heta

/-- Claim C8 witness: two voices; the first voice's fetch raises a connection
error, the second succeeds with value 0. -/
theorem prep_failure_isolated_witness :
    prepPhase [liveVoiceA, liveVoiceB]
        [Except.error FetchErr.connectionError, Except.ok 0] =
      prepPhase [] []
        ++ { player := liveVoiceA.player, nextMessages := [] }
          :: prepPhase [liveVoiceB] [Except.ok 0] :=
  prep_failure_isolated [] [liveVoiceB] liveVoiceA [] [Except.ok 0]
    FetchErr.connectionError rfl rfl

/-- Claim C7 counterexample: on an empty sample sequence the builder emits no
note events and no terminal off, so the track's time_offset sum is 0 while
floor(((end - start) / factor) * ticksPerUnit) = 9600, far beyond one unit per
event (the track has 2 events).  The claim's universal quantification over all
sample sequences therefore fails. -/
theorem time_conservation_empty_counterexample :
    generateTrackForRange c2Player [] 0 20 1 480 =
      some ([Msg.setTempo 1000000 0, Msg.programChange 0 0 0], c2Player, 0)
    ∧ trackTimeSum [Msg.setTempo 1000000 0, Msg.programChange 0 0 0] = 0
    ∧ ⌊(((20 - 0 : ℤ) : ℚ) / ((1 : ℤ) : ℚ)) * ((480 : ℤ) : ℚ)⌋ = 9600
    ∧ ¬ (|(0 : ℤ) - 9600| ≤
          ([Msg.setTempo 1000000 0, Msg.programChange 0 0 0].length : ℤ)) := by
  refine ⟨?_, by simp [trackTimeSum, Msg.time], by norm_num, by norm_num⟩
  simp [generateTrackForRange, trackLoop, c2Player, offMessage, programChangeMessage,
    triadInst]

/-- Claim C7 amended: for every non-empty sample sequence with non-decreasing
timestamps in [start, end] (and factor >= 1, ticks >= 0), the sum of all
time_offsets in the built track equals floor(((end - start) / factor) *
ticksPerUnit) to within one unit per event: deltas of no-op samples accumulate
because last_timestamp does not advance, so the span start..end is covered by
one floored term per state change plus the final off. -/
theorem time_conservation (p : Player) (samples : List (ℤ × ℚ))
    (start finish factor ticks : ℤ) (track : List Msg) (p2 : Player) (lt2 : ℤ)
    (hne : samples ≠ []) (hf : 0 < factor) (ht : 0 ≤ ticks)
    (hchain : List.Chain' (fun a b => a ≤ b) (start :: samples.map Prod.fst))
    (hend : ∀ t ∈ samples.map Prod.fst, t ≤ finish)
    (hsf : start ≤ finish)
    (hbuild : generateTrackForRange p samples start finish factor ticks =
      some (track, p2, lt2)) :
    |trackTimeSum track -
        ⌊(((finish - start : ℤ) : ℚ) / (factor : ℚ)) * (ticks : ℚ)⌋| ≤
      (track.length : ℤ) := by
  cases hloop : trackLoop factor ticks samples
      (p, start, [Msg.setTempo 1000000 0, programChangeMessage p]) with
  | none => simp [generateTrackForRange, hloop] at hbuild
  | some res =>
    obtain ⟨q2, qlt, qtrack⟩ := res
    simp only [generateTrackForRange, hloop, Option.some.injEq, Prod.mk.injEq] at hbuild
    obtain ⟨htrack, hq2, hqlt⟩ := hbuild
    have hsum0 : trackTimeSum [Msg.setTempo 1000000 0, programChangeMessage p] = 0 := by
      simp [trackTimeSum, Msg.time, programChangeMessage]
    have hfs0 : floorScale factor ticks (start - start) = 0 := by
      unfold floorScale
      have hz : ((start - start : ℤ) : ℚ) * ((ticks : ℚ) / (factor : ℚ)) = 0 := by
        push_cast
        ring
      rw [hz, Int.floor_zero]
    obtain ⟨hA, hB, hltfin⟩ := trackLoop_sum_bounds factor ticks start finish hf ht
      samples p start _ q2 qlt qtrack hloop hchain hend hsf
      (by rw [hsum0, hfs0]) (by rw [hsum0, hfs0]; simp)
    have hsome : q2.lastNote.isSome :=
      (trackLoop_some_inv factor ticks samples p start _ q2 qlt qtrack hloop).2.2
        (Or.inr hne)
    obtain ⟨n, hn⟩ := Option.isSome_iff_exists.mp hsome
    have hoff : offMessage q2 (scaleDelta factor ticks (finish - qlt)) =
        [Msg.noteOff q2.channel n (scaleDelta factor ticks (finish - qlt))] := by
      unfold offMessage
      rw [hn]
    have hTf : scaleDelta factor ticks (finish - qlt) =
        floorScale factor ticks (finish - qlt) :=
      scaleDelta_eq_floorScale factor ticks _ hf ht (by omega)
    have hsplit : qlt - start + (finish - qlt) = finish - start := by omega
    have hsup := floorScale_superadd factor ticks (qlt - start) (finish - qlt)
    rw [hsplit] at hsup
    obtain ⟨hup, hdown⟩ := hsup
    have hform : ⌊(((finish - start : ℤ) : ℚ) / (factor : ℚ)) * (ticks : ℚ)⌋ =
        floorScale factor ticks (finish - start) := by
      unfold floorScale
      congr 1
      ring
    subst hq2
    subst hqlt
    rw [← htrack, hform, hoff, trackTimeSum_append]
    have hoffsum : trackTimeSum
        [Msg.noteOff q2.channel n (scaleDelta factor ticks (finish - qlt))] =
        scaleDelta factor ticks (finish - qlt) := by
      simp [trackTimeSum, Msg.time]
    rw [hoffsum, hTf]
    simp only [List.length_append, List.length_cons, List.length_nil]
    rw [abs_sub_le_iff]
    push_cast
    constructor
    · omega
    · omega

/-- Claim C7 witness: the C2 scenario; the track's offset sum is 9600, the
target floor is 9600, and the track has 6 events. -/
theorem time_conservation_witness :
    |trackTimeSum c2ExpectedTrack -
        ⌊(((20 - 0 : ℤ) : ℚ) / ((1 : ℤ) : ℚ)) * ((480 : ℤ) : ℚ)⌋| ≤
      (c2ExpectedTrack.length : ℤ) :=
  time_conservation c2Player c2Samples 0 20 1 480 c2ExpectedTrack c2FinalPlayer 20
    (by simp [c2Samples]) (by norm_num) (by norm_num)
    (by norm_num [c2Samples, List.chain'_cons])
    (by norm_num [c2Samples]) (by norm_num) c2_eval

/-- Claim C9: every track built from a non-empty sample sequence (by a fresh
batch voice) ends with a NoteOff on the voice's channel for the most recently
sounded note, with time_offset scaled from `end - last_timestamp`. -/
theorem track_terminates_with_noteOff (p : Player) (samples : List (ℤ × ℚ))
    (start finish factor ticks : ℤ) (track : List Msg) (p2 : Player) (lt2 : ℤ)
    (hne : samples ≠ []) (hfresh : p.lastNote = none)
    (hbuild : generateTrackForRange p samples start finish factor ticks =
      some (track, p2, lt2)) :
    ∃ n, p2.lastNote = some n
      ∧ track.getLast? =
          some (Msg.noteOff p.channel n (scaleDelta factor ticks (finish - lt2)))
      ∧ lastNoteOn track = some n := by
  cases hloop : trackLoop factor ticks samples
      (p, start, [Msg.setTempo 1000000 0, programChangeMessage p]) with
  | none => simp [generateTrackForRange, hloop] at hbuild
  | some res =>
    obtain ⟨q2, qlt, qtrack⟩ := res
    simp only [generateTrackForRange, hloop, Option.some.injEq, Prod.mk.injEq] at hbuild
    obtain ⟨htrack, hq2, hqlt⟩ := hbuild
    obtain ⟨hch, hinv, hsome⟩ :=
      trackLoop_some_inv factor ticks samples p start _ q2 qlt qtrack hloop
    have hinit : lastNoteOn [Msg.setTempo 1000000 0, programChangeMessage p] =
        p.lastNote := by
      rw [hfresh]; rfl
    have hlno : lastNoteOn qtrack = q2.lastNote := hinv hinit
    obtain ⟨n, hn⟩ : ∃ n, q2.lastNote = some n :=
      Option.isSome_iff_exists.mp (hsome (Or.inr hne))
    have hoff : offMessage q2 (scaleDelta factor ticks (finish - qlt)) =
        [Msg.noteOff p.channel n (scaleDelta factor ticks (finish - qlt))] := by
      unfold offMessage
      rw [hn, hch]
    subst hq2
    subst hqlt
    refine ⟨n, hn, ?_, ?_⟩
    · rw [← htrack, hoff, List.getLast?_concat]
    · rw [← htrack, hoff, lastNoteOn_concat_off, hlno, hn]

/-- Claim C9 witness: the C2 scenario's track ends with note-off 67 at scaled
offset 0 on channel 0. -/
theorem track_terminates_with_noteOff_witness :
    ∃ n, c2FinalPlayer.lastNote = some n
      ∧ c2ExpectedTrack.getLast? =
          some (Msg.noteOff c2Player.channel n (scaleDelta 1 480 (20 - 20)))
      ∧ lastNoteOn c2ExpectedTrack = some n :=
  track_terminates_with_noteOff c2Player c2Samples 0 20 1 480 c2ExpectedTrack
    c2FinalPlayer 20 (by simp [c2Samples]) rfl c2_eval

/-- Claim C10: for the negative value -1 on a two-element value set, the index
is round((2-1)*(-1)) = -1, which lies in [-n,-1]; Python's negative-index
wraparound returns the last element 62 rather than failing or returning the
first element 60. -/
theorem clamp_negative_wraparound :
    pyRound ((((duoInst.availablePitches.length : ℤ) - 1 : ℤ) : ℚ) * (-1)) = -1
    ∧ duoInst.clamp (-1) = some 62
    ∧ duoInst.availablePitches.getLast? = some 62
    ∧ duoInst.clamp (-1) ≠ some (duoInst.availablePitches.headD 0)
    ∧ (duoInst.clamp (-1)).isSome := by
  have hr : pyRound ((((duoInst.availablePitches.length : ℤ) - 1 : ℤ) : ℚ) * (-1)) = -1 := by
    have : (((duoInst.availablePitches.length : ℤ) - 1 : ℤ) : ℚ) * (-1) = ((-1 : ℤ) : ℚ) := by
      norm_num [duoInst]
    rw [this, pyRound_intCast]
  have hclamp : duoInst.clamp (-1) = some 62 := by
    unfold Instrument.clamp
    rw [hr]
    unfold pyGetElem
    norm_num [duoInst]
  refine ⟨hr, hclamp, by norm_num [duoInst], ?_, by rw [hclamp]; rfl⟩
  rw [hclamp]
  norm_num [duoInst]

end Promiditheus
